import Mathlib

/-!
Shallow embedding of the streaming generation task manager implemented in
`routes/chat.py`: the task registry (`_generation_tasks` guarded by
`_generation_tasks_lock`), the background generation worker
(`_generation_worker`), the SSE subscription loop (`gen_subscribe` inside
`stream_message`), the cancel endpoint (`abort_stream_generation`) and the
bounded queue publishes.  Python dicts carrying optional JSON keys are
modelled as structures of `Option` fields so that key presence/absence in
the emitted payloads is tracked faithfully.
-/

namespace ChatStream

/-- Items placed on a task's `queue.Queue`: either a chunk dict
`\x7b'chunk': text, 'seq': n\x7d` or a done dict
`\x7b'done': True, 'final_seq': n\x7d` optionally carrying `'cancelled': True`.
The `cancelled` flag records whether the producing dict had the key. -/
inductive QueueItem where
  | chunk (seq : Nat) (text : String)
  | done (final_seq : Nat) (cancelled : Bool)
deriving DecidableEq

/-- Model of one JSON payload emitted on the SSE stream by `gen_subscribe`.
Every field except `message_id` is optional, mirroring which keys the
corresponding Python dict literal actually contains. -/
structure SSEPayload where
  message_id : Nat
  initial : Option Bool := none
  initial_chunk : Option String := none
  last_seq : Option Nat := none
  chunk : Option String := none
  seq : Option Nat := none
  done : Option Bool := none
  final_seq : Option Nat := none
  cancelled : Option Bool := none
deriving DecidableEq

/-- Payload of line 609-615: `\x7b'message_id', 'initial': True, 'initial_chunk', 'last_seq'\x7d`. -/
def initialPayload (mid : Nat) (content : String) (lastSeq : Nat) : SSEPayload :=
  { message_id := mid, initial := some true, initial_chunk := some content,
    last_seq := some lastSeq }

/-- Payload of line 643: `\x7b'message_id', 'chunk', 'seq'\x7d`. -/
def chunkPayload (mid : Nat) (s : Nat) (text : String) : SSEPayload :=
  { message_id := mid, chunk := some text, seq := some s }

/-- Payload of lines 619, 633, 647: `\x7b'message_id', 'done': True, 'final_seq'\x7d`.
Note the dict literal carries no `'cancelled'` key. -/
def donePayload (mid : Nat) (finalSeq : Nat) : SSEPayload :=
  { message_id := mid, done := some true, final_seq := some finalSeq }

/-- The task record stored in `_generation_tasks` (lines 216-224); the queue
and thread handles are modelled separately. -/
structure TaskRecord where
  chat_session_id : Nat
  started_at : Nat
  last_seq : Nat
  done : Bool
  cancelled : Bool
deriving DecidableEq

/-- Fresh record created by `start_generation_task` (lines 216-224):
zeroed sequence and flags. -/
def freshRecord (csid now : Nat) : TaskRecord :=
  { chat_session_id := csid, started_at := now, last_seq := 0,
    done := false, cancelled := false }

/-- The registry `_generation_tasks`: association list from
`assistant_message_id` to its task record.  All mutations happen under
`_generation_tasks_lock`, so they are modelled as sequential updates. -/
def Registry : Type := List (Nat × TaskRecord)

/-- Lines 207-226: under the lock, return the existing record unchanged if
present, otherwise insert a fresh record and start the worker thread.  The
returned `Bool` is true iff a worker thread was spawned (the `t.start()`
in the create branch); the worker body invokes the backend stream exactly
once, so the `Bool` also counts backend invocations. -/
def start_generation_task (reg : Registry) (mid csid now : Nat) :
    Registry × TaskRecord × Bool :=
  match (List.lookup mid reg : Option TaskRecord) with
  | some t => (reg, t, false)
  | none => ((mid, freshRecord csid now) :: reg, freshRecord csid now, true)

/-- Update a record in the registry. -/
def setCancelled (reg : Registry) (mid : Nat) : Registry :=
  (reg : List (Nat × TaskRecord)).map fun p =>
    if p.1 = mid then (p.1, { p.2 with cancelled := true }) else p

/-- Marker appended at line 129 when the worker observes cancellation. -/
def cancellationMarker : String := "\n\n(Генерация прервана пользователем)"

/-- Grace delay (seconds) in `_delayed_cleanup`, line 189. -/
def graceSeconds : Nat := 10

/-- Subscriber read timeout `_SSE_WAIT_TIMEOUT` (seconds), line 27. -/
def sseWaitTimeoutSeconds : Nat := 15

/-- Events of the worker's linear execution trace. -/
inductive TraceEvent where
  | persist (content : String)
  | publish (item : QueueItem)
  | setDoneFlag
  | sleep (secs : Nat)
  | evict
deriving DecidableEq

/-- Body of `_generation_worker` (lines 79-169) as a trace of persist and
publish events.  `cancelled n` is the value of `task['cancelled']` read
under the lock at the check that follows publishing sequence `n`; `acc` is
the `accumulated` list and `seq` the local counter.  Empty chunks are
skipped; a non-empty chunk advances `seq`, is appended, the joined buffer
is persisted, the chunk is published; if the cancellation flag is then
observed, the marker is appended, persisted, and a cancelled terminal is
published.  On backend exhaustion the final buffer is persisted and an
uncancelled terminal published. -/
def generation_worker (cancelled : Nat → Bool) (acc : List String) (seq : Nat) :
    List String → List TraceEvent
  | [] => [.persist (String.join acc), .publish (.done seq false)]
  | c :: rest =>
    if c = "" then generation_worker cancelled acc seq rest
    else
      .persist (String.join (acc ++ [c])) ::
      .publish (.chunk (seq + 1) c) ::
      (if cancelled (seq + 1) then
        [.persist (String.join (acc ++ [c]) ++ cancellationMarker),
         .publish (.done (seq + 1) true)]
      else
        generation_worker cancelled (acc ++ [c]) (seq + 1) rest)

/-- Full task trace: the worker body, then the `finally` block setting
`done_flag` and spawning `_delayed_cleanup`, which sleeps `graceSeconds`
and pops the record (lines 180-192). -/
def workerTrace (cancelled : Nat → Bool) (chunks : List String) : List TraceEvent :=
  generation_worker cancelled [] 0 chunks ++
    [.setDoneFlag, .sleep graceSeconds, .evict]

/-- Sequence numbers of published chunk items, in trace order. -/
def chunkSeqs (l : List TraceEvent) : List Nat :=
  l.filterMap fun e =>
    match e with
    | .publish (.chunk s _) => some s
    | _ => none

/-- Contents written to the durable store, in trace order. -/
def persistedContents (l : List TraceEvent) : List String :=
  l.filterMap fun e =>
    match e with
    | .persist c => some c
    | _ => none

/-- Published terminal events `(final_seq, cancelled)`, in trace order. -/
def terminalEvents (l : List TraceEvent) : List (Nat × Bool) :=
  l.filterMap fun e =>
    match e with
    | .publish (.done f c) => some (f, c)
    | _ => none

/-- Modelled from the spec: "the concatenation of all chunks in sequence
order equals the durable content at any point the worker has persisted".
Given the non-empty chunks still to produce, the persisted contents are
the joins of the successive produced-so-far buffers, ending with the full
buffer persisted again at exhaustion. -/
def persistSpec (acc : List String) : List String → List String
  | [] => [String.join acc]
  | c :: rest => String.join (acc ++ [c]) :: persistSpec (acc ++ [c]) rest

/-- Whether the task record is still in the registry after a trace:
it stays present until the `evict` event. -/
def taskPresent : List TraceEvent → Bool
  | [] => true
  | .evict :: _ => false
  | _ :: rest => taskPresent rest

/-- Result of one `q.get(timeout=_SSE_WAIT_TIMEOUT)` call in the
subscription loop: either an item, or `queue.Empty` (a timeout), in which
case the loop reads the current `done_flag` and `task['last_seq']`. -/
inductive GetResult where
  | item (i : QueueItem)
  | timeout (doneNow : Bool) (lastSeqNow : Nat)
deriving DecidableEq

/-- Queue-reading loop of `gen_subscribe` (lines 627-648): the client's
`client_last_seq` threshold is fixed for the whole loop; chunks with
`seq <= client_last_seq` are discarded, others forwarded; a done item ends
the stream with a final payload; a timeout ends the stream only when the
worker's `done_flag` is already set. -/
def subscribeLoop (mid clientLastSeq : Nat) : List GetResult → List SSEPayload
  | [] => []
  | .timeout doneNow lastSeqNow :: rest =>
    if doneNow then [donePayload mid lastSeqNow]
    else subscribeLoop mid clientLastSeq rest
  | .item (.chunk s t) :: rest =>
    if s ≤ clientLastSeq then subscribeLoop mid clientLastSeq rest
    else chunkPayload mid s t :: subscribeLoop mid clientLastSeq rest
  | .item (.done f _) :: _ => [donePayload mid f]

/-- Modelled from the spec: the subscription loop as §4.3 words it, with a
local cursor that advances to each forwarded sequence ("forward it and
advance the subscriber's local lastSeq"). -/
def subscribeLoopSpec (mid cursor : Nat) : List GetResult → List SSEPayload
  | [] => []
  | .timeout doneNow lastSeqNow :: rest =>
    if doneNow then [donePayload mid lastSeqNow]
    else subscribeLoopSpec mid cursor rest
  | .item (.chunk s t) :: rest =>
    if s ≤ cursor then subscribeLoopSpec mid cursor rest
    else chunkPayload mid s t :: subscribeLoopSpec mid s rest
  | .item (.done f _) :: _ => [donePayload mid f]

/-- The `gen_subscribe` generator (lines 603-648): emit the initial
snapshot payload with the current durable content and the server-side
`last_seq` (0 when there is no task); if the registry has no record, emit
an immediate terminal and stop; otherwise run the queue-reading loop. -/
def gen_subscribe (mid : Nat) (currentContent : String) (clientLastSeq : Nat)
    (task : Option TaskRecord) (gets : List GetResult) : List SSEPayload :=
  match task with
  | none => [initialPayload mid currentContent 0, donePayload mid 0]
  | some t =>
    initialPayload mid currentContent t.last_seq ::
      subscribeLoop mid clientLastSeq gets

/-- Chunk sequence numbers delivered in a payload stream (only chunk
payloads carry a `seq` key). -/
def deliveredSeqs (l : List SSEPayload) : List Nat :=
  l.filterMap fun p => p.seq

/-- Chunk texts delivered in a payload stream. -/
def deliveredChunks (l : List SSEPayload) : List String :=
  l.filterMap fun p => p.chunk

/-- Chunk sequence numbers appearing in a stream of queue reads. -/
def getSeqs (gets : List GetResult) : List Nat :=
  gets.filterMap fun g =>
    match g with
    | .item (.chunk s _) => some s
    | _ => none

/-- Queue capacity `maxsize=1000` from line 211. -/
def queueMaxsize : Nat := 1000

/-- Timeout (seconds) of the fallback blocking `q.put` used for terminal
items (lines 140, 167, 1032). -/
def donePutTimeoutSeconds : Nat := 1

/-- Outcome of a publish attempt, distinguishing whether the producer
waited and whether the item ended up on the queue. -/
inductive PutOutcome where
  | enqueued
  | droppedNoWait
  | enqueuedAfterWait
  | droppedAfterWait
deriving DecidableEq

/-- Python `Queue.put_nowait`: append if below capacity, else raise
`queue.Full` (the caller drops the item). -/
def put_nowait (q : List QueueItem) (x : QueueItem) : List QueueItem × PutOutcome :=
  if q.length < queueMaxsize then (q ++ [x], .enqueued) else (q, .droppedNoWait)

/-- Chunk publish, lines 109-112: `put_nowait`; on `queue.Full` the chunk
is dropped with a log line and the worker continues. -/
def publishChunk (q : List QueueItem) (x : QueueItem) : List QueueItem × PutOutcome :=
  put_nowait q x

/-- Terminal publish, lines 136-142, 163-169 and 1024-1034: `put_nowait`;
on `queue.Full`, a blocking `q.put(..., timeout=1.0)`.  `freedDuringWait`
says whether a consumer removed an item from the full queue during that
bounded wait; if not, the timed put raises and the item is dropped. -/
def publishDone (q : List QueueItem) (freedDuringWait : Bool) (x : QueueItem) :
    List QueueItem × PutOutcome :=
  if q.length < queueMaxsize then (q ++ [x], .enqueued)
  else if freedDuringWait then (q.tail ++ [x], .enqueuedAfterWait)
  else (q, .droppedAfterWait)

/-- Whether the producer blocked at all for this outcome. -/
def outcomeWaited : PutOutcome → Bool
  | .enqueued => false
  | .droppedNoWait => false
  | .enqueuedAfterWait => true
  | .droppedAfterWait => true

/-- Upper bound (seconds) on how long the producer blocked. -/
def outcomeWaitSeconds (o : PutOutcome) : Nat :=
  if outcomeWaited o then donePutTimeoutSeconds else 0

/-- Result of the `abort_stream_generation` endpoint (lines 981-1038). -/
inductive AbortResult where
  | errSessionNotFound
  | errBadAssistantId
  | errTaskNotFound
  | errNoActiveTasks
  | ok (mid : Nat)
deriving DecidableEq

/-- Latest still-active candidate by `started_at` (lines 1014-1019: sort
descending, take the first; on ties the earliest-listed maximum wins, as
with Python's stable sort). -/
def pickLatest (l : List (Nat × TaskRecord)) : Option (Nat × TaskRecord) :=
  l.foldl
    (fun best p =>
      match best with
      | none => some p
      | some b => if p.2.started_at > b.2.started_at then some p else some b)
    none

/-- The `abort_stream_generation` handler (lines 989-1038).  `sessionFound`
is whether the conversation lookup succeeded; `csid` is its id.  Returns
the typed result, the updated registry, and the synthetic terminal item
pushed onto the cancelled task's queue (`\x7b'done': True, 'final_seq',
'cancelled': True\x7d`, line 1029), when any. -/
def abort_stream_generation (sessionFound : Bool) (csid : Nat)
    (assistantId : Option Nat) (reg : Registry) :
    AbortResult × Registry × Option QueueItem :=
  if !sessionFound then (.errSessionNotFound, reg, none)
  else
    match assistantId with
    | some mid =>
      match (List.lookup mid reg : Option TaskRecord) with
      | none => (.errTaskNotFound, reg, none)
      | some t =>
        if t.chat_session_id ≠ csid then (.errTaskNotFound, reg, none)
        else (.ok mid, setCancelled reg mid, some (.done t.last_seq true))
    | none =>
      match pickLatest ((reg : List (Nat × TaskRecord)).filter fun p =>
          p.2.chat_session_id == csid && !p.2.done) with
      | none => (.errNoActiveTasks, reg, none)
      | some (mid, t) => (.ok mid, setCancelled reg mid, some (.done t.last_seq true))

/-- Result of the resume branch of `stream_message` (lines 564-666). -/
inductive StreamResult where
  | errSessionNotFound
  | events (l : List SSEPayload)
deriving DecidableEq

/-- Resume branch of `stream_message` (lines 576-666): unknown
conversation is a typed 404; otherwise the handler looks up the task,
reads the durable content (empty when the message row is absent), and
streams `gen_subscribe`. -/
def stream_message_resume (sessionFound : Bool) (mid clientLastSeq : Nat)
    (task : Option TaskRecord) (dbContent : Option String)
    (gets : List GetResult) : StreamResult :=
  if !sessionFound then .errSessionNotFound
  else .events (gen_subscribe mid (dbContent.getD "") clientLastSeq task gets)

/-- One subscriber's handling of one queue item it popped, with its fixed
cursor: the filter of `subscribeLoop`. -/
def deliverStep (mid cursor : Nat) (i : QueueItem) : List SSEPayload :=
  match i with
  | .chunk s t => if s ≤ cursor then [] else [chunkPayload mid s t]
  | .done f _ => [donePayload mid f]

/-- Two subscribers attached to the same task share the single
`task['queue']`; each `q.get` removes the head item and hands it to
whichever subscriber the scheduler ran (`true` = subscriber A).  Each
subscriber keeps its own fixed cursor. -/
def runTwo (mid cursorA cursorB : Nat) :
    List QueueItem → List Bool → List SSEPayload × List SSEPayload
  | _, [] => ([], [])
  | [], _ => ([], [])
  | i :: rest, turn :: turns =>
    let p := runTwo mid cursorA cursorB rest turns
    if turn then (deliverStep mid cursorA i ++ p.1, p.2)
    else (p.1, deliverStep mid cursorB i ++ p.2)

/-- Number of chunk payloads with sequence `s` in a payload stream. -/
def countSeqPayload (s : Nat) (l : List SSEPayload) : Nat :=
  (deliveredSeqs l).count s

/-- Number of chunk items with sequence `s` on a queue. -/
def countSeqItems (s : Nat) (l : List QueueItem) : Nat :=
  (l.filterMap fun i =>
    match i with
    | QueueItem.chunk q _ => some q
    | _ => none).count s

/-- Non-empty increments actually produced, in backend order. -/
def nonEmptyChunks (chunks : List String) : List String :=
  chunks.filter fun c => c ≠ ""

theorem nonEmptyChunks_nil : nonEmptyChunks [] = [] := rfl

theorem nonEmptyChunks_cons_pos {c : String} (h : c ≠ "") (rest : List String) :
    nonEmptyChunks (c :: rest) = c :: nonEmptyChunks rest := by
  simp [nonEmptyChunks, h]

theorem nonEmptyChunks_cons_neg {c : String} (h : c = "") (rest : List String) :
    nonEmptyChunks (c :: rest) = nonEmptyChunks rest := by
  simp [nonEmptyChunks, h]

-- ---------------------------------------------------------------------------
-- Claim theorems
-- ---------------------------------------------------------------------------

/-- C1: starting generation is idempotent per response identity.  If a
record already exists, `start_generation_task` returns it unchanged with
the registry untouched and spawns no worker; if it does not, the caller is
the creator: it inserts a fresh zeroed record, spawns the one worker (which
invokes the backend once), and any later start for the same identity
returns that record unchanged without spawning. -/
theorem c1_start_idempotent :
    (∀ (reg : Registry) (mid csid now : Nat) (t : TaskRecord),
        List.lookup mid reg = some t →
        start_generation_task reg mid csid now = (reg, t, false)) ∧
    (∀ (reg : Registry) (mid csid now csid' now' : Nat),
        List.lookup mid reg = none →
        (start_generation_task reg mid csid now).2.2 = true ∧
        (start_generation_task reg mid csid now).2.1 = freshRecord csid now ∧
        start_generation_task (start_generation_task reg mid csid now).1 mid csid' now' =
          ((start_generation_task reg mid csid now).1,
            (start_generation_task reg mid csid now).2.1, false)) := by
  constructor
  · intro reg mid csid now t h
    simp [start_generation_task, h]
  · intro reg mid csid now csid' now' h
    refine ⟨by simp [start_generation_task, h], by simp [start_generation_task, h], ?_⟩
    simp [start_generation_task, h, List.lookup]

/-- Witness for C1 at a concrete registry: identity 1 is absent, the first
start spawns the worker, and the second start attaches without spawning. -/
theorem c1_start_idempotent_witness :
    List.lookup 1 ([] : Registry) = none ∧
    ((start_generation_task [] 1 2 3).2.2 = true ∧
      (start_generation_task [] 1 2 3).2.1 = freshRecord 2 3 ∧
      start_generation_task (start_generation_task [] 1 2 3).1 1 4 5 =
        ((start_generation_task [] 1 2 3).1,
          (start_generation_task [] 1 2 3).2.1, false)) :=
  ⟨rfl, c1_start_idempotent.2 [] 1 2 3 4 5 rfl⟩

/-- C8: a subscriber attaching to a response identity with no task record
(already evicted) receives exactly one snapshot payload carrying the full
durable content, then one terminal payload, with no chunk events at all. -/
theorem c8_evicted_snapshot_then_done :
    ∀ (mid clientLastSeq : Nat) (content : String) (gets : List GetResult),
      gen_subscribe mid content clientLastSeq none gets =
        [initialPayload mid content 0, donePayload mid 0] ∧
      deliveredChunks (gen_subscribe mid content clientLastSeq none gets) = [] := by
  intro mid n content gets
  exact ⟨rfl, rfl⟩

/-- C9 counterexample: with the queue at capacity, a terminal publish is
not dropped without waiting — the fallback blocking put waits and, when a
slot frees during the wait, the item is queued. -/
theorem c9_counterexample :
    (List.replicate queueMaxsize (QueueItem.chunk 1 "x")).length = queueMaxsize ∧
    (publishDone (List.replicate queueMaxsize (QueueItem.chunk 1 "x")) true
        (QueueItem.done 5 true)).2 = PutOutcome.enqueuedAfterWait ∧
    outcomeWaited PutOutcome.enqueuedAfterWait = true := by
  refine ⟨List.length_replicate _ _, ?_, rfl⟩
  simp [publishDone]

/-- C9 amended: chunk publishes never block — at capacity the chunk is
dropped without waiting and the worker continues; terminal publishes fall
back to a blocking put bounded by the 1-second timeout, so the producer
never waits longer than that bound. -/
theorem c9_producer_bounded :
    (∀ (q : List QueueItem) (x : QueueItem),
        outcomeWaited (publishChunk q x).2 = false) ∧
    (∀ (q : List QueueItem) (x : QueueItem), queueMaxsize ≤ q.length →
        publishChunk q x = (q, PutOutcome.droppedNoWait)) ∧
    (∀ (q : List QueueItem) (freed : Bool) (x : QueueItem),
        outcomeWaitSeconds (publishDone q freed x).2 ≤ donePutTimeoutSeconds) := by
  refine ⟨?_, ?_, ?_⟩
  · intro q x
    unfold publishChunk put_nowait
    split <;> rfl
  · intro q x h
    unfold publishChunk put_nowait
    rw [if_neg (by omega)]
  · intro q freed x
    unfold publishDone
    split
    · simp [outcomeWaitSeconds, outcomeWaited]
    · split <;> simp [outcomeWaitSeconds, outcomeWaited, donePutTimeoutSeconds]

/-- Witness for C9 amended: a full queue drops a chunk publish without
any wait. -/
theorem c9_producer_bounded_witness :
    queueMaxsize ≤ (List.replicate queueMaxsize (QueueItem.chunk 1 "x")).length ∧
    publishChunk (List.replicate queueMaxsize (QueueItem.chunk 1 "x"))
        (QueueItem.chunk 2 "y") =
      (List.replicate queueMaxsize (QueueItem.chunk 1 "x"),
        PutOutcome.droppedNoWait) :=
  ⟨by simp, c9_producer_bounded.2.1 _ _ (by simp)⟩

/-- C10 counterexample: a resume that references an unknown response
identity inside a known conversation is not reported as a typed not-found
failure — the handler serves an empty snapshot plus a terminal event. -/
theorem c10_counterexample :
    stream_message_resume true 999 0 none none [] =
      StreamResult.events [initialPayload 999 "" 0, donePayload 999 0] ∧
    stream_message_resume true 999 0 none none [] ≠
      StreamResult.errSessionNotFound := by
  exact ⟨rfl, by decide⟩

/-- C10 amended: cancel requests referencing an unknown conversation,
an unknown or foreign response identity, or a conversation with no active
task report typed not-found failures and are not retried; a resume with an
unknown conversation reports a typed not-found failure; a resume with an
unknown response identity inside a known conversation is instead served
the durable-fallback stream (empty snapshot plus terminal). -/
theorem c10_not_found_typed :
    (∀ (csid : Nat) (aid : Option Nat) (reg : Registry),
        abort_stream_generation false csid aid reg =
          (AbortResult.errSessionNotFound, reg, none)) ∧
    (∀ (csid mid : Nat) (reg : Registry),
        List.lookup mid reg = none →
        abort_stream_generation true csid (some mid) reg =
          (AbortResult.errTaskNotFound, reg, none)) ∧
    (∀ (csid mid : Nat) (t : TaskRecord) (reg : Registry),
        List.lookup mid reg = some t → t.chat_session_id ≠ csid →
        abort_stream_generation true csid (some mid) reg =
          (AbortResult.errTaskNotFound, reg, none)) ∧
    (∀ (csid : Nat) (reg : Registry),
        ((reg : List (Nat × TaskRecord)).filter fun p =>
            p.2.chat_session_id == csid && !p.2.done) = [] →
        abort_stream_generation true csid none reg =
          (AbortResult.errNoActiveTasks, reg, none)) ∧
    (∀ (mid n : Nat) (task : Option TaskRecord) (dbc : Option String)
        (gets : List GetResult),
        stream_message_resume false mid n task dbc gets =
          StreamResult.errSessionNotFound) ∧
    (∀ (mid n : Nat) (gets : List GetResult),
        stream_message_resume true mid n none none gets =
          StreamResult.events [initialPayload mid "" 0, donePayload mid 0]) := by
  refine ⟨?_, ?_, ?_, ?_, ?_, ?_⟩
  · intro csid aid reg
    rfl
  · intro csid mid reg h
    simp [abort_stream_generation, h]
  · intro csid mid t reg h hne
    simp [abort_stream_generation, h, hne]
  · intro csid reg h
    simp [abort_stream_generation, h, pickLatest]
  · intro mid n task dbc gets
    rfl
  · intro mid n gets
    rfl

/-- Witness for C10 amended: a cancel naming an absent identity in an
empty registry gets the typed not-found result. -/
theorem c10_not_found_typed_witness :
    List.lookup 42 ([] : Registry) = none ∧
    abort_stream_generation true 7 (some 42) [] =
      (AbortResult.errTaskNotFound, [], none) :=
  ⟨rfl, c10_not_found_typed.2.1 7 42 [] rfl⟩

theorem deliveredSeqs_nil : deliveredSeqs [] = [] := rfl

theorem deliveredSeqs_initial_cons (mid ls : Nat) (content : String)
    (l : List SSEPayload) :
    deliveredSeqs (initialPayload mid content ls :: l) = deliveredSeqs l := rfl

theorem deliveredSeqs_chunk_cons (mid s : Nat) (t : String) (l : List SSEPayload) :
    deliveredSeqs (chunkPayload mid s t :: l) = s :: deliveredSeqs l := rfl

theorem deliveredSeqs_done_cons (mid f : Nat) (l : List SSEPayload) :
    deliveredSeqs (donePayload mid f :: l) = deliveredSeqs l := rfl

theorem getSeqs_nil : getSeqs [] = [] := rfl

theorem getSeqs_timeout_cons (dn : Bool) (ls : Nat) (rest : List GetResult) :
    getSeqs (GetResult.timeout dn ls :: rest) = getSeqs rest := rfl

theorem getSeqs_chunk_cons (s : Nat) (t : String) (rest : List GetResult) :
    getSeqs (GetResult.item (QueueItem.chunk s t) :: rest) = s :: getSeqs rest := rfl

theorem getSeqs_done_cons (f : Nat) (c : Bool) (rest : List GetResult) :
    getSeqs (GetResult.item (QueueItem.done f c) :: rest) = getSeqs rest := rfl

/-- Every sequence number the subscription loop forwards exceeds the
client's fixed `client_last_seq` threshold. -/
theorem subscribeLoop_seqs_gt (mid n : Nat) :
    ∀ (gets : List GetResult) (s : Nat),
      s ∈ deliveredSeqs (subscribeLoop mid n gets) → n < s := by
  intro gets
  induction gets with
  | nil =>
    intro s hs
    simp [subscribeLoop, deliveredSeqs_nil] at hs
  | cons g rest ih =>
    intro s hs
    cases g with
    | timeout dn ls =>
      cases dn with
      | false => exact ih s (by simpa [subscribeLoop] using hs)
      | true =>
        rw [show subscribeLoop mid n (GetResult.timeout true ls :: rest) =
          [donePayload mid ls] from rfl] at hs
        simp [deliveredSeqs, donePayload] at hs
    | item i =>
      cases i with
      | chunk sq t =>
        by_cases hle : sq ≤ n
        · rw [show subscribeLoop mid n (GetResult.item (QueueItem.chunk sq t) :: rest) =
            subscribeLoop mid n rest by simp [subscribeLoop, hle]] at hs
          exact ih s hs
        · rw [show subscribeLoop mid n (GetResult.item (QueueItem.chunk sq t) :: rest) =
            chunkPayload mid sq t :: subscribeLoop mid n rest by
              simp [subscribeLoop, hle]] at hs
          rw [deliveredSeqs_chunk_cons] at hs
          rcases List.mem_cons.1 hs with h | h
          · omega
          · exact ih s h
      | done f c =>
        rw [show subscribeLoop mid n (GetResult.item (QueueItem.done f c) :: rest) =
          [donePayload mid f] from rfl] at hs
        simp [deliveredSeqs, donePayload] at hs

/-- The forwarded sequence numbers form a sublist of the sequence numbers
read from the queue. -/
theorem subscribeLoop_seqs_sublist (mid n : Nat) :
    ∀ gets : List GetResult,
      (deliveredSeqs (subscribeLoop mid n gets)).Sublist (getSeqs gets) := by
  intro gets
  induction gets with
  | nil => simp [subscribeLoop, deliveredSeqs_nil, getSeqs_nil]
  | cons g rest ih =>
    cases g with
    | timeout dn ls =>
      rw [getSeqs_timeout_cons]
      cases dn with
      | false => simpa [subscribeLoop] using ih
      | true =>
        rw [show subscribeLoop mid n (GetResult.timeout true ls :: rest) =
          [donePayload mid ls] from rfl]
        simp [deliveredSeqs, donePayload]
    | item i =>
      cases i with
      | chunk sq t =>
        rw [getSeqs_chunk_cons]
        by_cases hle : sq ≤ n
        · rw [show subscribeLoop mid n (GetResult.item (QueueItem.chunk sq t) :: rest) =
            subscribeLoop mid n rest by simp [subscribeLoop, hle]]
          exact ih.cons sq
        · rw [show subscribeLoop mid n (GetResult.item (QueueItem.chunk sq t) :: rest) =
            chunkPayload mid sq t :: subscribeLoop mid n rest by
              simp [subscribeLoop, hle]]
          rw [deliveredSeqs_chunk_cons]
          exact ih.cons₂ sq
      | done f c =>
        rw [getSeqs_done_cons,
          show subscribeLoop mid n (GetResult.item (QueueItem.done f c) :: rest) =
            [donePayload mid f] from rfl]
        simp [deliveredSeqs, donePayload]

/-- With strictly increasing queue sequences, the implementation's fixed
threshold filter behaves exactly as the spec's advancing cursor: the loop
with fixed `client_last_seq = n` equals the loop whose cursor starts at
any `c ≥ n` dominated by the remaining stream. -/
theorem subscribeLoop_eq_spec_general (mid n : Nat) :
    ∀ (gets : List GetResult) (c : Nat),
      n ≤ c →
      (∀ s ∈ getSeqs gets, s ≤ n ∨ c < s) →
      List.Pairwise (· < ·) (getSeqs gets) →
      subscribeLoop mid n gets = subscribeLoopSpec mid c gets := by
  intro gets
  induction gets with
  | nil => intro c _ _ _; rfl
  | cons g rest ih =>
    intro c hnc hcover hpw
    cases g with
    | timeout dn ls =>
      cases dn with
      | true => rfl
      | false =>
        rw [getSeqs_timeout_cons] at hcover hpw
        show subscribeLoop mid n rest = subscribeLoopSpec mid c rest
        exact ih c hnc hcover hpw
    | item i =>
      cases i with
      | chunk sq t =>
        rw [getSeqs_chunk_cons] at hcover hpw
        have hrest := (List.pairwise_cons.1 hpw).2
        have hlater := (List.pairwise_cons.1 hpw).1
        by_cases hle : sq ≤ n
        · have hlec : sq ≤ c := le_trans hle hnc
          rw [show subscribeLoop mid n (GetResult.item (QueueItem.chunk sq t) :: rest) =
              subscribeLoop mid n rest by simp [subscribeLoop, hle],
            show subscribeLoopSpec mid c (GetResult.item (QueueItem.chunk sq t) :: rest) =
              subscribeLoopSpec mid c rest by simp [subscribeLoopSpec, hlec]]
          exact ih c hnc (fun s hs => hcover s (List.mem_cons_of_mem _ hs)) hrest
        · have hcsq : c < sq := by
            rcases hcover sq (List.mem_cons_self _ _) with h | h
            · omega
            · exact h
          rw [show subscribeLoop mid n (GetResult.item (QueueItem.chunk sq t) :: rest) =
              chunkPayload mid sq t :: subscribeLoop mid n rest by
                simp [subscribeLoop, hle],
            show subscribeLoopSpec mid c (GetResult.item (QueueItem.chunk sq t) :: rest) =
              chunkPayload mid sq t :: subscribeLoopSpec mid sq rest by
                simp [subscribeLoopSpec, not_le.1 (by omega : ¬ sq ≤ c)]]
          have : subscribeLoop mid n rest = subscribeLoopSpec mid sq rest := by
            refine ih sq (by omega) ?_ hrest
            intro s hs
            exact Or.inr (hlater s hs)
          rw [this]
      | done f cbit => rfl

/-- C2: with cursor `lastSeq = n`, no chunk with sequence `≤ n` is ever
forwarded; with the strictly increasing sequences a single worker
produces, the forwarded sequence numbers are strictly increasing and the
fixed-threshold loop of the code coincides with the spec's
advancing-cursor loop, so the subscriber behaves as if its local cursor
advanced to each forwarded sequence. -/
theorem c2_no_redelivery_below_cursor :
    (∀ (mid n : Nat) (content : String) (t : TaskRecord) (gets : List GetResult),
        ∀ s ∈ deliveredSeqs (gen_subscribe mid content n (some t) gets), n < s) ∧
    (∀ (mid n : Nat) (content : String) (t : TaskRecord) (gets : List GetResult),
        List.Pairwise (· < ·) (getSeqs gets) →
        List.Pairwise (· < ·)
          (deliveredSeqs (gen_subscribe mid content n (some t) gets))) ∧
    (∀ (mid n : Nat) (gets : List GetResult),
        List.Pairwise (· < ·) (getSeqs gets) →
        subscribeLoop mid n gets = subscribeLoopSpec mid n gets) := by
  refine ⟨?_, ?_, ?_⟩
  · intro mid n content t gets s hs
    rw [gen_subscribe, deliveredSeqs_initial_cons] at hs
    exact subscribeLoop_seqs_gt mid n gets s hs
  · intro mid n content t gets hpw
    rw [gen_subscribe, deliveredSeqs_initial_cons]
    exact hpw.sublist (subscribeLoop_seqs_sublist mid n gets)
  · intro mid n gets hpw
    exact subscribeLoop_eq_spec_general mid n gets n le_rfl
      (fun s _ => by omega) hpw

/-- Witness for C2, Scenario B: chunks 1, 2, 3 are on the queue and a
subscriber attaches with `lastSeq = 1`; it receives exactly chunk 2
(`"lo"`) then chunk 3 (`"!"`), then the terminal. -/
theorem c2_no_redelivery_below_cursor_witness :
    List.Pairwise (· < ·)
      (getSeqs [GetResult.item (QueueItem.chunk 1 "Hel"),
        GetResult.item (QueueItem.chunk 2 "lo"),
        GetResult.item (QueueItem.chunk 3 "!"),
        GetResult.item (QueueItem.done 3 false)]) ∧
    subscribeLoop 7 1
      [GetResult.item (QueueItem.chunk 1 "Hel"),
        GetResult.item (QueueItem.chunk 2 "lo"),
        GetResult.item (QueueItem.chunk 3 "!"),
        GetResult.item (QueueItem.done 3 false)] =
      [chunkPayload 7 2 "lo", chunkPayload 7 3 "!", donePayload 7 3] ∧
    subscribeLoop 7 1
      [GetResult.item (QueueItem.chunk 1 "Hel"),
        GetResult.item (QueueItem.chunk 2 "lo"),
        GetResult.item (QueueItem.chunk 3 "!"),
        GetResult.item (QueueItem.done 3 false)] =
      subscribeLoopSpec 7 1
        [GetResult.item (QueueItem.chunk 1 "Hel"),
          GetResult.item (QueueItem.chunk 2 "lo"),
          GetResult.item (QueueItem.chunk 3 "!"),
          GetResult.item (QueueItem.done 3 false)] :=
  ⟨by decide, by decide,
    c2_no_redelivery_below_cursor.2.2 7 1 _ (by decide)⟩

theorem chunkSeqs_nil : chunkSeqs [] = [] := rfl

theorem chunkSeqs_persist_cons (c : String) (l : List TraceEvent) :
    chunkSeqs (TraceEvent.persist c :: l) = chunkSeqs l := rfl

theorem chunkSeqs_chunk_cons (s : Nat) (t : String) (l : List TraceEvent) :
    chunkSeqs (TraceEvent.publish (QueueItem.chunk s t) :: l) = s :: chunkSeqs l := rfl

theorem chunkSeqs_done_cons (f : Nat) (c : Bool) (l : List TraceEvent) :
    chunkSeqs (TraceEvent.publish (QueueItem.done f c) :: l) = chunkSeqs l := rfl

theorem persistedContents_persist_cons (c : String) (l : List TraceEvent) :
    persistedContents (TraceEvent.persist c :: l) = c :: persistedContents l := rfl

theorem persistedContents_publish_cons (i : QueueItem) (l : List TraceEvent) :
    persistedContents (TraceEvent.publish i :: l) = persistedContents l := rfl

theorem terminalEvents_persist_cons (c : String) (l : List TraceEvent) :
    terminalEvents (TraceEvent.persist c :: l) = terminalEvents l := rfl

theorem terminalEvents_chunk_cons (s : Nat) (t : String) (l : List TraceEvent) :
    terminalEvents (TraceEvent.publish (QueueItem.chunk s t) :: l) =
      terminalEvents l := rfl

theorem terminalEvents_done_cons (f : Nat) (c : Bool) (l : List TraceEvent) :
    terminalEvents (TraceEvent.publish (QueueItem.done f c) :: l) =
      (f, c) :: terminalEvents l := rfl

/-- With the cancellation flag never set, the worker assigns consecutive
sequence numbers starting right above its local counter, one per
non-empty increment. -/
theorem chunkSeqs_worker_noCancel (f : Nat → Bool) (hf : ∀ n, f n = false) :
    ∀ (chunks acc : List String) (s : Nat),
      chunkSeqs (generation_worker f acc s chunks) =
        List.range' (s + 1) (nonEmptyChunks chunks).length := by
  intro chunks
  induction chunks with
  | nil =>
    intro acc s
    simp [generation_worker, nonEmptyChunks_nil, chunkSeqs, List.range']
  | cons c rest ih =>
    intro acc s
    by_cases hc : c = ""
    · rw [show generation_worker f acc s (c :: rest) =
        generation_worker f acc s rest by simp [generation_worker, hc],
        nonEmptyChunks_cons_neg hc]
      exact ih acc s
    · rw [show generation_worker f acc s (c :: rest) =
        TraceEvent.persist (String.join (acc ++ [c])) ::
        TraceEvent.publish (QueueItem.chunk (s + 1) c) ::
        generation_worker f (acc ++ [c]) (s + 1) rest by
          simp [generation_worker, hc, hf],
        nonEmptyChunks_cons_pos hc]
      rw [chunkSeqs_persist_cons, chunkSeqs_chunk_cons, ih (acc ++ [c]) (s + 1)]
      rw [List.length_cons, List.range'_succ]

/-- With the cancellation flag never set, the successive durable writes
are exactly the joins of the successive produced-so-far buffers, with the
full buffer written once more at exhaustion. -/
theorem persists_worker_noCancel (f : Nat → Bool) (hf : ∀ n, f n = false) :
    ∀ (chunks acc : List String) (s : Nat),
      persistedContents (generation_worker f acc s chunks) =
        persistSpec acc (nonEmptyChunks chunks) := by
  intro chunks
  induction chunks with
  | nil =>
    intro acc s
    simp [generation_worker, nonEmptyChunks_nil, persistSpec,
      persistedContents_persist_cons, persistedContents_publish_cons,
      persistedContents]
  | cons c rest ih =>
    intro acc s
    by_cases hc : c = ""
    · rw [show generation_worker f acc s (c :: rest) =
        generation_worker f acc s rest by simp [generation_worker, hc],
        nonEmptyChunks_cons_neg hc]
      exact ih acc s
    · rw [show generation_worker f acc s (c :: rest) =
        TraceEvent.persist (String.join (acc ++ [c])) ::
        TraceEvent.publish (QueueItem.chunk (s + 1) c) ::
        generation_worker f (acc ++ [c]) (s + 1) rest by
          simp [generation_worker, hc, hf],
        nonEmptyChunks_cons_pos hc]
      rw [persistedContents_persist_cons, persistedContents_publish_cons,
        ih (acc ++ [c]) (s + 1), persistSpec]

/-- With the cancellation flag never set, the worker publishes exactly one
terminal event: `final_seq` counts the non-empty increments and the
cancelled flag is false. -/
theorem terminals_worker_noCancel (f : Nat → Bool) (hf : ∀ n, f n = false) :
    ∀ (chunks acc : List String) (s : Nat),
      terminalEvents (generation_worker f acc s chunks) =
        [(s + (nonEmptyChunks chunks).length, false)] := by
  intro chunks
  induction chunks with
  | nil =>
    intro acc s
    simp [generation_worker, nonEmptyChunks_nil, terminalEvents_persist_cons,
      terminalEvents_done_cons, terminalEvents]
  | cons c rest ih =>
    intro acc s
    by_cases hc : c = ""
    · rw [show generation_worker f acc s (c :: rest) =
        generation_worker f acc s rest by simp [generation_worker, hc],
        nonEmptyChunks_cons_neg hc]
      exact ih acc s
    · rw [show generation_worker f acc s (c :: rest) =
        TraceEvent.persist (String.join (acc ++ [c])) ::
        TraceEvent.publish (QueueItem.chunk (s + 1) c) ::
        generation_worker f (acc ++ [c]) (s + 1) rest by
          simp [generation_worker, hc, hf],
        nonEmptyChunks_cons_pos hc]
      rw [terminalEvents_persist_cons, terminalEvents_chunk_cons,
        ih (acc ++ [c]) (s + 1), List.length_cons]
      congr 2
      omega

/-- Every entry of `persistSpec acc nz` is the join of `acc` extended by
some prefix of `nz`: a durable write is always the concatenation of the
chunks produced so far. -/
theorem persistSpec_mem :
    ∀ (nz acc : List String) (x : String), x ∈ persistSpec acc nz →
      ∃ p t, nz = p ++ t ∧ x = String.join (acc ++ p) := by
  intro nz
  induction nz with
  | nil =>
    intro acc x hx
    rw [persistSpec] at hx
    rcases List.mem_singleton.1 hx with h
    exact ⟨[], [], rfl, by simpa using h⟩
  | cons c rest ih =>
    intro acc x hx
    rw [persistSpec] at hx
    rcases List.mem_cons.1 hx with h | h
    · exact ⟨[c], rest, rfl, h⟩
    · rcases ih (acc ++ [c]) x h with ⟨p, t, hpt, hx'⟩
      exact ⟨c :: p, t, by rw [hpt]; rfl, by simpa [List.append_assoc] using hx'⟩

/-- C3: with no cancellation, the worker skips empty increments, assigns
consecutive sequence numbers 1..k to the non-empty increments with no
gaps, every durable write equals the concatenation of the chunks produced
so far, and the single terminal event carries final sequence k and
cancelled = false. -/
theorem c3_worker_sequences_and_durability :
    ∀ (f : Nat → Bool) (chunks : List String),
      (∀ n, f n = false) →
      chunkSeqs (generation_worker f [] 0 chunks) =
        List.range' 1 (nonEmptyChunks chunks).length ∧
      persistedContents (generation_worker f [] 0 chunks) =
        persistSpec [] (nonEmptyChunks chunks) ∧
      (∀ x ∈ persistedContents (generation_worker f [] 0 chunks),
        ∃ p t, nonEmptyChunks chunks = p ++ t ∧ x = String.join p) ∧
      terminalEvents (generation_worker f [] 0 chunks) =
        [((nonEmptyChunks chunks).length, false)] := by
  intro f chunks hf
  refine ⟨chunkSeqs_worker_noCancel f hf chunks [] 0,
    persists_worker_noCancel f hf chunks [] 0, ?_, ?_⟩
  · intro x hx
    rw [persists_worker_noCancel f hf chunks [] 0] at hx
    rcases persistSpec_mem (nonEmptyChunks chunks) [] x hx with ⟨p, t, hpt, hx'⟩
    exact ⟨p, t, hpt, by simpa using hx'⟩
  · rw [terminals_worker_noCancel f hf chunks [] 0]
    simp

/-- Witness for C3, Scenario A: backend yields `["Hel", "lo"]` with no
cancellation; sequences are 1, 2, the durable writes are `"Hel"`,
`"Hello"`, `"Hello"`, and the terminal event is `(2, false)`. -/
theorem c3_worker_sequences_and_durability_witness :
    (∀ n, (fun _ : Nat => false) n = false) ∧
    (chunkSeqs (generation_worker (fun _ => false) [] 0 ["Hel", "lo"]) =
        List.range' 1 (nonEmptyChunks ["Hel", "lo"]).length ∧
      persistedContents (generation_worker (fun _ => false) [] 0 ["Hel", "lo"]) =
        persistSpec [] (nonEmptyChunks ["Hel", "lo"]) ∧
      (∀ x ∈ persistedContents (generation_worker (fun _ => false) [] 0 ["Hel", "lo"]),
        ∃ p t, nonEmptyChunks ["Hel", "lo"] = p ++ t ∧ x = String.join p) ∧
      terminalEvents (generation_worker (fun _ => false) [] 0 ["Hel", "lo"]) =
        [((nonEmptyChunks ["Hel", "lo"]).length, false)]) ∧
    persistedContents (generation_worker (fun _ => false) [] 0 ["Hel", "lo"]) =
      ["Hel", "Hello", "Hello"] ∧
    terminalEvents (generation_worker (fun _ => false) [] 0 ["Hel", "lo"]) =
      [(2, false)] ∧
    chunkSeqs (generation_worker (fun _ => false) [] 0 ["Hel", "lo"]) = [1, 2] :=
  ⟨fun _ => rfl,
    c3_worker_sequences_and_durability (fun _ => false) ["Hel", "lo"] (fun _ => rfl),
    by decide, by decide, by decide⟩

/-- Behaviour of the worker when the cancellation flag first reads true at
the check following sequence `k`, with the local counter currently at
`s < k` and enough non-empty increments remaining to reach `k`: the
chunks published are exactly sequences `s+1 .. k`, the last durable write
is the buffer through chunk `k` with the cancellation marker appended,
and the single terminal event is `(k, true)`. -/
theorem worker_cancel_general (f : Nat → Bool) (k : Nat)
    (hfk : f k = true) (hbelow : ∀ j, j < k → f j = false) :
    ∀ (chunks acc : List String) (s : Nat),
      s < k → k ≤ s + (nonEmptyChunks chunks).length →
      chunkSeqs (generation_worker f acc s chunks) = List.range' (s + 1) (k - s) ∧
      (∃ pre, persistedContents (generation_worker f acc s chunks) =
        pre ++ [String.join (acc ++ (nonEmptyChunks chunks).take (k - s)) ++
          cancellationMarker]) ∧
      terminalEvents (generation_worker f acc s chunks) = [(k, true)] := by
  intro chunks
  induction chunks with
  | nil =>
    intro acc s h1 h2
    rw [nonEmptyChunks_nil] at h2
    simp at h2
    omega
  | cons c rest ih =>
    intro acc s h1 h2
    by_cases hc : c = ""
    · rw [nonEmptyChunks_cons_neg hc] at h2 ⊢
      rw [show generation_worker f acc s (c :: rest) =
        generation_worker f acc s rest by simp [generation_worker, hc]]
      exact ih acc s h1 h2
    · rw [nonEmptyChunks_cons_pos hc] at h2 ⊢
      by_cases hk : s + 1 = k
      · rw [show generation_worker f acc s (c :: rest) =
          [TraceEvent.persist (String.join (acc ++ [c])),
            TraceEvent.publish (QueueItem.chunk (s + 1) c),
            TraceEvent.persist (String.join (acc ++ [c]) ++ cancellationMarker),
            TraceEvent.publish (QueueItem.done (s + 1) true)] by
            simp [generation_worker, hc, hk ▸ hfk]]
        refine ⟨?_, ⟨[String.join (acc ++ [c])], ?_⟩, ?_⟩
        · rw [show k - s = 1 by omega]
          simp [chunkSeqs_persist_cons, chunkSeqs_chunk_cons, chunkSeqs_done_cons,
            chunkSeqs_nil, List.range']
        · rw [show k - s = 1 by omega]
          simp [persistedContents_persist_cons, persistedContents_publish_cons,
            persistedContents]
        · rw [show s + 1 = k from hk] at *
          simp [terminalEvents_persist_cons, terminalEvents_chunk_cons,
            terminalEvents_done_cons, terminalEvents]
      · have hlt : s + 1 < k := by omega
        rw [show generation_worker f acc s (c :: rest) =
          TraceEvent.persist (String.join (acc ++ [c])) ::
          TraceEvent.publish (QueueItem.chunk (s + 1) c) ::
          generation_worker f (acc ++ [c]) (s + 1) rest by
            simp [generation_worker, hc, hbelow (s + 1) hlt]]
        rcases ih (acc ++ [c]) (s + 1) hlt (by simp at h2 ⊢; omega)
          with ⟨hseq, ⟨pre, hper⟩, hterm⟩
        refine ⟨?_, ⟨String.join (acc ++ [c]) :: pre, ?_⟩, ?_⟩
        · rw [chunkSeqs_persist_cons, chunkSeqs_chunk_cons, hseq,
            show k - s = (k - (s + 1)) + 1 by omega, List.range'_succ]
        · rw [persistedContents_persist_cons, persistedContents_publish_cons, hper,
            show k - s = (k - (s + 1)) + 1 by omega, List.take_succ_cons]
          simp [List.append_assoc]
        · rw [terminalEvents_persist_cons, terminalEvents_chunk_cons, hterm]

/-- C5: when the worker observes the cancellation flag right after
producing chunk `k`, it publishes chunks 1..k, its final durable write is
the buffer through chunk `k` with the cancellation marker appended, and
its single terminal event carries final sequence `k` and cancelled =
true. -/
theorem c5_cancellation_marker_and_terminal :
    ∀ (f : Nat → Bool) (k : Nat) (chunks : List String),
      f k = true → (∀ j, j < k → f j = false) →
      0 < k → k ≤ (nonEmptyChunks chunks).length →
      chunkSeqs (generation_worker f [] 0 chunks) = List.range' 1 k ∧
      (∃ pre, persistedContents (generation_worker f [] 0 chunks) =
        pre ++ [String.join ((nonEmptyChunks chunks).take k) ++
          cancellationMarker]) ∧
      terminalEvents (generation_worker f [] 0 chunks) = [(k, true)] := by
  intro f k chunks hfk hbelow hk hlen
  rcases worker_cancel_general f k hfk hbelow chunks [] 0 hk (by omega)
    with ⟨hseq, ⟨pre, hper⟩, hterm⟩
  refine ⟨by simpa using hseq, ⟨pre, by simpa using hper⟩, hterm⟩

/-- Witness for C5, Scenario C: cancel is observed right after sequence 1
while the backend still has `"lo"` to produce; the terminal is `(1, true)`
and the durable content ends with the marker appended after chunk 1. -/
theorem c5_cancellation_marker_and_terminal_witness :
    (fun n => decide (1 ≤ n)) 1 = true ∧
    (0 : Nat) < 1 ∧
    1 ≤ (nonEmptyChunks ["Hel", "lo"]).length ∧
    (chunkSeqs (generation_worker (fun n => decide (1 ≤ n)) [] 0 ["Hel", "lo"]) =
        List.range' 1 1 ∧
      (∃ pre,
        persistedContents
            (generation_worker (fun n => decide (1 ≤ n)) [] 0 ["Hel", "lo"]) =
          pre ++ [String.join ((nonEmptyChunks ["Hel", "lo"]).take 1) ++
            cancellationMarker]) ∧
      terminalEvents
          (generation_worker (fun n => decide (1 ≤ n)) [] 0 ["Hel", "lo"]) =
        [(1, true)]) ∧
    persistedContents
        (generation_worker (fun n => decide (1 ≤ n)) [] 0 ["Hel", "lo"]) =
      ["Hel", "Hel" ++ cancellationMarker] :=
  ⟨rfl, by decide, by decide,
    c5_cancellation_marker_and_terminal (fun n => decide (1 ≤ n)) 1 ["Hel", "lo"]
      rfl
      (fun j hj => by
        have hj0 : j = 0 := by omega
        rw [hj0]
        rfl)
      (by decide) (by decide),
    by decide⟩

/-- Every worker run ends with a final durable write immediately followed
by the terminal publish, whichever of the three exit paths is taken. -/
theorem worker_ends (f : Nat → Bool) :
    ∀ (chunks acc : List String) (s : Nat),
      ∃ pre fc fs fcl, generation_worker f acc s chunks =
        pre ++ [TraceEvent.persist fc, TraceEvent.publish (QueueItem.done fs fcl)] := by
  intro chunks
  induction chunks with
  | nil =>
    intro acc s
    exact ⟨[], String.join acc, s, false, rfl⟩
  | cons c rest ih =>
    intro acc s
    by_cases hc : c = ""
    · rw [show generation_worker f acc s (c :: rest) =
        generation_worker f acc s rest by simp [generation_worker, hc]]
      exact ih acc s
    · by_cases hcan : f (s + 1) = true
      · refine ⟨[TraceEvent.persist (String.join (acc ++ [c])),
          TraceEvent.publish (QueueItem.chunk (s + 1) c)],
          String.join (acc ++ [c]) ++ cancellationMarker, s + 1, true, ?_⟩
        simp [generation_worker, hc, hcan]
      · rcases ih (acc ++ [c]) (s + 1) with ⟨pre, fc, fs, fcl, hpre⟩
        refine ⟨TraceEvent.persist (String.join (acc ++ [c])) ::
          TraceEvent.publish (QueueItem.chunk (s + 1) c) :: pre, fc, fs, fcl, ?_⟩
        simp [generation_worker, hc, hcan, hpre]

/-- The worker body emits no `evict` event. -/
theorem taskPresent_worker (f : Nat → Bool) :
    ∀ (chunks acc : List String) (s : Nat),
      taskPresent (generation_worker f acc s chunks) = true := by
  intro chunks
  induction chunks with
  | nil =>
    intro acc s
    rfl
  | cons c rest ih =>
    intro acc s
    by_cases hc : c = ""
    · rw [show generation_worker f acc s (c :: rest) =
        generation_worker f acc s rest by simp [generation_worker, hc]]
      exact ih acc s
    · by_cases hcan : f (s + 1) = true
      · rw [show generation_worker f acc s (c :: rest) =
          [TraceEvent.persist (String.join (acc ++ [c])),
            TraceEvent.publish (QueueItem.chunk (s + 1) c),
            TraceEvent.persist (String.join (acc ++ [c]) ++ cancellationMarker),
            TraceEvent.publish (QueueItem.done (s + 1) true)] by
            simp [generation_worker, hc, hcan]]
        rfl
      · rw [show generation_worker f acc s (c :: rest) =
          TraceEvent.persist (String.join (acc ++ [c])) ::
          TraceEvent.publish (QueueItem.chunk (s + 1) c) ::
          generation_worker f (acc ++ [c]) (s + 1) rest by
            simp [generation_worker, hc, hcan]]
        rw [show taskPresent (TraceEvent.persist (String.join (acc ++ [c])) ::
          TraceEvent.publish (QueueItem.chunk (s + 1) c) ::
          generation_worker f (acc ++ [c]) (s + 1) rest) =
          taskPresent (generation_worker f (acc ++ [c]) (s + 1) rest) from rfl]
        exact ih (acc ++ [c]) (s + 1)

theorem taskPresent_append (l1 l2 : List TraceEvent) :
    taskPresent (l1 ++ l2) = (taskPresent l1 && taskPresent l2) := by
  induction l1 with
  | nil => simp [taskPresent]
  | cons e rest ih =>
    cases e <;> simp [taskPresent, ih]

/-- C7: the full task trace ends with the final durable write, the
terminal publish, the worker's done flag, the fixed grace sleep, and only
then the eviction; the task is still registered through the terminal and
the grace window, is absent afterwards, and its final content was made
durable before eviction (the final persist precedes `evict` in the
trace). -/
theorem c7_eviction_after_grace :
    ∀ (f : Nat → Bool) (chunks : List String),
      (∃ pre fc fs fcl,
        workerTrace f chunks =
          pre ++ [TraceEvent.persist fc,
            TraceEvent.publish (QueueItem.done fs fcl),
            TraceEvent.setDoneFlag, TraceEvent.sleep graceSeconds,
            TraceEvent.evict] ∧
        (persistedContents (workerTrace f chunks)).getLast? = some fc) ∧
      taskPresent (generation_worker f [] 0 chunks ++
        [TraceEvent.setDoneFlag, TraceEvent.sleep graceSeconds]) = true ∧
      taskPresent (workerTrace f chunks) = false := by
  intro f chunks
  rcases worker_ends f chunks [] 0 with ⟨pre, fc, fs, fcl, hpre⟩
  refine ⟨⟨pre, fc, fs, fcl, ?_, ?_⟩, ?_, ?_⟩
  · rw [workerTrace, hpre]
    simp
  · rw [workerTrace, hpre]
    simp [persistedContents, List.filterMap_append]
  · rw [taskPresent_append, taskPresent_worker f chunks [] 0]
    rfl
  · rw [workerTrace, taskPresent_append, taskPresent_worker f chunks [] 0]
    rfl

/-- C4 counterexample: the terminal payload a subscriber receives after a
cancel never carries `cancelled = true` — `gen_subscribe` forwards only
`done` and `final_seq` from the synthetic item — and the synthetic item,
being a single queue entry, wakes only the one subscriber that pops it:
with two blocked subscribers, the other receives nothing in that window. -/
theorem c4_counterexample :
    subscribeLoop 3 0 [GetResult.item (QueueItem.done 1 true)] =
      [donePayload 3 1] ∧
    (donePayload 3 1).cancelled = none ∧
    (donePayload 3 1).cancelled ≠ some true ∧
    runTwo 3 0 0 [QueueItem.done 1 true] [true] = ([donePayload 3 1], []) := by
  exact ⟨rfl, rfl, by decide, rfl⟩

/-- C4 amended: cancelling an active task sets its cancellation flag and
pushes one synthetic terminal item (recording `cancelled = true`) onto the
shared queue; the single subscriber that pops that item receives a
terminal payload within one read — without waiting for the worker's next
flag check — but the payload carries only `done` and `final_seq`, not the
cancelled flag, and other blocked subscribers are not woken by the push. -/
theorem c4_cancel_wakeup :
    ∀ (csid mid n : Nat) (t : TaskRecord) (reg : Registry)
      (rest : List GetResult),
      List.lookup mid reg = some t → t.chat_session_id = csid →
      abort_stream_generation true csid (some mid) reg =
        (AbortResult.ok mid, setCancelled reg mid,
          some (QueueItem.done t.last_seq true)) ∧
      subscribeLoop mid n
          (GetResult.item (QueueItem.done t.last_seq true) :: rest) =
        [donePayload mid t.last_seq] ∧
      (donePayload mid t.last_seq).done = some true ∧
      (donePayload mid t.last_seq).final_seq = some t.last_seq ∧
      (donePayload mid t.last_seq).cancelled = none := by
  intro csid mid n t reg rest h1 h2
  refine ⟨?_, rfl, rfl, rfl, rfl⟩
  simp [abort_stream_generation, h1, h2]

/-- Witness for C4 amended at a concrete registry: cancelling task 5 in
conversation 2 pushes the synthetic terminal, and a subscriber popping it
terminates at once with a `done`-only payload. -/
theorem c4_cancel_wakeup_witness :
    List.lookup 5 [(5, TaskRecord.mk 2 0 1 false false)] =
      some (TaskRecord.mk 2 0 1 false false) ∧
    (TaskRecord.mk 2 0 1 false false).chat_session_id = 2 ∧
    (abort_stream_generation true 2 (some 5)
        [(5, TaskRecord.mk 2 0 1 false false)] =
      (AbortResult.ok 5,
        setCancelled [(5, TaskRecord.mk 2 0 1 false false)] 5,
        some (QueueItem.done 1 true)) ∧
      subscribeLoop 5 0 [GetResult.item (QueueItem.done 1 true)] =
        [donePayload 5 1] ∧
      (donePayload 5 1).done = some true ∧
      (donePayload 5 1).final_seq = some 1 ∧
      (donePayload 5 1).cancelled = none) :=
  ⟨rfl, rfl, c4_cancel_wakeup 2 5 0 (TaskRecord.mk 2 0 1 false false)
    [(5, TaskRecord.mk 2 0 1 false false)] [] rfl rfl⟩

/-- C6 counterexample: two subscribers with cursor 0 share the task's
single queue; under the alternating schedule, each queue item is consumed
by exactly one of them, so subscriber B never receives chunk 1 even
though its sequence exceeds B's cursor — delivery is competitive, not
fan-out. -/
theorem c6_counterexample :
    runTwo 9 0 0
        [QueueItem.chunk 1 "Hel", QueueItem.chunk 2 "lo",
          QueueItem.chunk 3 "!", QueueItem.done 3 false]
        [true, false, true, false] =
      ([chunkPayload 9 1 "Hel", chunkPayload 9 3 "!"],
        [chunkPayload 9 2 "lo", donePayload 9 3]) ∧
    (0 : Nat) < 1 ∧
    chunkPayload 9 1 "Hel" ∉
      (runTwo 9 0 0
        [QueueItem.chunk 1 "Hel", QueueItem.chunk 2 "lo",
          QueueItem.chunk 3 "!", QueueItem.done 3 false]
        [true, false, true, false]).2 := by
  exact ⟨rfl, by decide, by decide⟩

theorem countSeqPayload_append (s : Nat) (l1 l2 : List SSEPayload) :
    countSeqPayload s (l1 ++ l2) = countSeqPayload s l1 + countSeqPayload s l2 := by
  simp [countSeqPayload, deliveredSeqs, List.count_append]

theorem countSeqItems_cons (s : Nat) (i : QueueItem) (rest : List QueueItem) :
    countSeqItems s (i :: rest) = countSeqItems s [i] + countSeqItems s rest := by
  cases i with
  | chunk q t =>
    simp [countSeqItems, List.count_cons]
    split <;> omega
  | done f c => simp [countSeqItems]

theorem countSeqPayload_deliverStep (s mid cursor : Nat) (i : QueueItem) :
    countSeqPayload s (deliverStep mid cursor i) ≤ countSeqItems s [i] := by
  cases i with
  | chunk q t =>
    by_cases hle : q ≤ cursor
    · simp [deliverStep, hle, countSeqPayload, deliveredSeqs, countSeqItems]
    · simp [deliverStep, hle, countSeqPayload, deliveredSeqs, chunkPayload,
        countSeqItems, List.count_cons, List.count_singleton]
  | done f c =>
    simp [deliverStep, countSeqPayload, deliveredSeqs, donePayload, countSeqItems]

/-- C6 amended: subscribers to one task share the single task queue with
competitive consumption — each chunk item is delivered to at most one of
them (each sequence number appears across both outputs at most as often
as on the queue) — while each subscriber still applies its own cursor: it
is never forwarded a chunk at or below its own `lastSeq`. -/
theorem c6_competitive_consumption :
    (∀ (mid ca cb s : Nat) (items : List QueueItem) (sched : List Bool),
        countSeqPayload s (runTwo mid ca cb items sched).1 +
          countSeqPayload s (runTwo mid ca cb items sched).2 ≤
          countSeqItems s items) ∧
    (∀ (mid ca cb s : Nat) (items : List QueueItem) (sched : List Bool),
        s ∈ deliveredSeqs (runTwo mid ca cb items sched).1 → ca < s) ∧
    (∀ (mid ca cb s : Nat) (items : List QueueItem) (sched : List Bool),
        s ∈ deliveredSeqs (runTwo mid ca cb items sched).2 → cb < s) := by
  have hstep : ∀ (mid cursor s : Nat) (i : QueueItem),
      s ∈ deliveredSeqs (deliverStep mid cursor i) → cursor < s := by
    intro mid cursor s i hs
    cases i with
    | chunk q t =>
      by_cases hle : q ≤ cursor
      · simp [deliverStep, hle, deliveredSeqs] at hs
      · rw [show deliverStep mid cursor (QueueItem.chunk q t) =
          [chunkPayload mid q t] by simp [deliverStep, hle]] at hs
        simp [deliveredSeqs, chunkPayload] at hs
        omega
    | done f c =>
      simp [deliverStep, deliveredSeqs, donePayload] at hs
  refine ⟨?_, ?_, ?_⟩
  · intro mid ca cb s items
    induction items with
    | nil =>
      intro sched
      cases sched <;> simp [runTwo, countSeqPayload, deliveredSeqs, countSeqItems]
    | cons i rest ih =>
      intro sched
      cases sched with
      | nil => simp [runTwo, countSeqPayload, deliveredSeqs, countSeqItems]
      | cons turn turns =>
        rw [countSeqItems_cons]
        have hd := countSeqPayload_deliverStep s mid (if turn then ca else cb) i
        have hr := ih turns
        cases turn with
        | true =>
          rw [show runTwo mid ca cb (i :: rest) (true :: turns) =
            (deliverStep mid ca i ++ (runTwo mid ca cb rest turns).1,
              (runTwo mid ca cb rest turns).2) from rfl]
          simp only [countSeqPayload_append]
          simp at hd
          omega
        | false =>
          rw [show runTwo mid ca cb (i :: rest) (false :: turns) =
            ((runTwo mid ca cb rest turns).1,
              deliverStep mid cb i ++ (runTwo mid ca cb rest turns).2) from rfl]
          simp only [countSeqPayload_append]
          simp at hd
          omega
  · intro mid ca cb s items
    induction items with
    | nil =>
      intro sched hs
      cases sched <;> simp [runTwo, deliveredSeqs] at hs
    | cons i rest ih =>
      intro sched hs
      cases sched with
      | nil => simp [runTwo, deliveredSeqs] at hs
      | cons turn turns =>
        cases turn with
        | true =>
          rw [show runTwo mid ca cb (i :: rest) (true :: turns) =
            (deliverStep mid ca i ++ (runTwo mid ca cb rest turns).1,
              (runTwo mid ca cb rest turns).2) from rfl] at hs
          rw [show deliveredSeqs (deliverStep mid ca i ++
              (runTwo mid ca cb rest turns).1) =
            deliveredSeqs (deliverStep mid ca i) ++
              deliveredSeqs (runTwo mid ca cb rest turns).1 by
            simp [deliveredSeqs, List.filterMap_append]] at hs
          rcases List.mem_append.1 hs with h | h
          · exact hstep mid ca s i h
          · exact ih turns h
        | false =>
          rw [show runTwo mid ca cb (i :: rest) (false :: turns) =
            ((runTwo mid ca cb rest turns).1,
              deliverStep mid cb i ++ (runTwo mid ca cb rest turns).2) from rfl] at hs
          exact ih turns hs
  · intro mid ca cb s items
    induction items with
    | nil =>
      intro sched hs
      cases sched <;> simp [runTwo, deliveredSeqs] at hs
    | cons i rest ih =>
      intro sched hs
      cases sched with
      | nil => simp [runTwo, deliveredSeqs] at hs
      | cons turn turns =>
        cases turn with
        | true =>
          rw [show runTwo mid ca cb (i :: rest) (true :: turns) =
            (deliverStep mid ca i ++ (runTwo mid ca cb rest turns).1,
              (runTwo mid ca cb rest turns).2) from rfl] at hs
          exact ih turns hs
        | false =>
          rw [show runTwo mid ca cb (i :: rest) (false :: turns) =
            ((runTwo mid ca cb rest turns).1,
              deliverStep mid cb i ++ (runTwo mid ca cb rest turns).2) from rfl] at hs
          rw [show deliveredSeqs (deliverStep mid cb i ++
              (runTwo mid ca cb rest turns).2) =
            deliveredSeqs (deliverStep mid cb i) ++
              deliveredSeqs (runTwo mid ca cb rest turns).2 by
            simp [deliveredSeqs, List.filterMap_append]] at hs
          rcases List.mem_append.1 hs with h | h
          · exact hstep mid cb s i h
          · exact ih turns h

/-- Witness for C6 amended: on the alternating two-subscriber run over
chunks 1, 2, 3, subscriber A receives sequence 3, which exceeds its
cursor 0. -/
theorem c6_competitive_consumption_witness :
    3 ∈ deliveredSeqs (runTwo 9 0 0
        [QueueItem.chunk 1 "Hel", QueueItem.chunk 2 "lo",
          QueueItem.chunk 3 "!", QueueItem.done 3 false]
        [true, false, true, false]).1 ∧
    (0 : Nat) < 3 :=
  ⟨by decide,
    c6_competitive_consumption.2.1 9 0 0 3
      [QueueItem.chunk 1 "Hel", QueueItem.chunk 2 "lo",
        QueueItem.chunk 3 "!", QueueItem.done 3 false]
      [true, false, true, false] (by decide)⟩

end ChatStream
